import Mathlib

/-!
# Bluetooth buffer management (net/bluetooth/buf.c)

A shallow embedding of the buffer pool and of the data-window editing
functions of `buf.c`, followed by the properties proved about them.

Conventions of the embedding

* `int` values are mathematical integers (`Int`); the arithmetic of the model
  is the arithmetic of C wherever the C result is representable. Where the
  difference matters, `int_add` gives the sum as the 32-bit targets compute
  it, and `init_check` the check of `bt_buf_init` on that sum.
* `size_t` values are natural numbers below `2 ^ w`, where `w` is the width of
  `size_t` on the target; every `size_t` result is reduced modulo `2 ^ w`.
* a pointer into `buffers[i].buf` is the integer offset from the first byte of
  that array; a pointer `&buffers[i]` is the index `i`.
* `BT_BUF_MAX_DATA` (declared in `bluetooth/buf.h`, outside `buf.c`) is a
  parameter of the functions that use it.
-/

namespace BtBuf

/-! ## Constants and types -/

/-- Total number of all types of buffers. -/
def NUM_BUFS : Int := 20

/-- Modelled from the spec: the error number of `errno.h`, which `buf.c`
includes but does not define; `bt_buf_init` returns its negation when too many
data buffers are requested (`ConfigError::TooManyDataBuffers`). -/
def EINVAL : Int := 22

/-- Modelled from the spec: the traffic classes of `enum bt_buf_type`
(`bluetooth/buf.h`), a closed set of four enumerators named in `buf.c`;
`other v` stands for an enum value that is none of the four. -/
inductive bt_buf_type where
  | BT_CMD
  | BT_EVT
  | BT_ACL_OUT
  | BT_ACL_IN
  | other (v : Nat)
  deriving DecidableEq, Repr

/-- Modelled from the spec: `struct bt_buf` of `bluetooth/buf.h` reduced to the
fields `buf.c` reads and writes: the class tag `type`, the data pointer `data`
(as an offset from `buf`), the window length `len` and the storage `buf`. -/
structure bt_buf where
  type : bt_buf_type
  data : Int
  len : Nat
  buf : List Nat
  deriving DecidableEq, Repr

/-- Modelled from the spec: the free-list primitive `struct nano_fifo` of the
nanokernel, an opaque FIFO of buffer handles; a handle `&buffers[i]` is the
index `i`. -/
abbrev nano_fifo := List Int

/-- Modelled from the spec: `nano_fifo_init` of the nanokernel (`initialize()`
of the free-list primitive) leaves the queue empty. -/
def nano_fifo_init : nano_fifo := []

/-- Modelled from the spec: `nano_fifo_put` of the nanokernel (`give(Handle)`)
appends the handle at the tail of the queue. -/
def nano_fifo_put (q : nano_fifo) (h : Int) : nano_fifo := q ++ [h]

/-- Modelled from the spec: `nano_fifo_get` of the nanokernel (take one if
present) removes and returns the handle at the head of the queue, or returns
nothing (`NULL`) when the queue is empty. -/
def nano_fifo_get : nano_fifo → Option (Int × nano_fifo)
  | [] => none
  | h :: q => some (h, q)

/-- The three static free-lists of `buf.c`; a value of this type is the address
of one of them. -/
inductive fifo_id where
  | avail_hci
  | avail_acl_in
  | avail_acl_out
  deriving DecidableEq, Repr

/-- The file-scope state of `buf.c`: the array `buffers` (read at any index; the
array proper is the indices `0 .. NUM_BUFS - 1`) and the three free-lists. -/
structure Pool where
  buffers : Int → bt_buf
  avail_hci : nano_fifo
  avail_acl_in : nano_fifo
  avail_acl_out : nano_fifo

/-- The queue stored at the address `f`. -/
def Pool.fifo (p : Pool) : fifo_id → nano_fifo
  | .avail_hci => p.avail_hci
  | .avail_acl_in => p.avail_acl_in
  | .avail_acl_out => p.avail_acl_out

/-- Store the queue `q` at the address `f`. -/
def Pool.setFifo (p : Pool) (f : fifo_id) (q : nano_fifo) : Pool :=
  match f with
  | .avail_hci => { p with avail_hci := q }
  | .avail_acl_in => { p with avail_acl_in := q }
  | .avail_acl_out => { p with avail_acl_out := q }

/-- Store the buffer `b` in slot `i` of `buffers`. -/
def Pool.setBuf (p : Pool) (i : Int) (b : bt_buf) : Pool :=
  { p with buffers := fun j => if j = i then b else p.buffers j }

/-- Conversion of a mathematical integer to `size_t` of width `w`:
reduction modulo `2 ^ w`. -/
def to_size_t (w : Nat) (x : Int) : Nat := (x % (2 : Int) ^ w).toNat

/-! ## The functions of buf.c -/

/-- The free-list of a buffer type; `none` is the `NULL` of the default case. -/
def get_avail : bt_buf_type → Option fifo_id
  | .BT_CMD => some .avail_hci
  | .BT_EVT => some .avail_hci
  | .BT_ACL_IN => some .avail_acl_in
  | .BT_ACL_OUT => some .avail_acl_out
  | .other _ => none

/-- Take a buffer of the given type from its free-list: `none` when the list has
no buffer (also for a type without a list, where no queue holds a buffer);
otherwise the slot is cleared (`memset`), tagged with `type`, and its data
pointer is set `reserve_head` bytes into the storage. The result is the
returned handle and the new state. -/
def bt_buf_get (BT_BUF_MAX_DATA : Nat) (p : Pool) (type : bt_buf_type)
    (reserve_head : Nat) : Option Int × Pool :=
  match get_avail type with
  | none => (none, p)
  | some avail =>
    match nano_fifo_get (p.fifo avail) with
    | none => (none, p)
    | some (buf, q) =>
      (some buf,
        (p.setFifo avail q).setBuf buf
          { type := type
            data := (reserve_head : Int)
            len := 0
            buf := List.replicate BT_BUF_MAX_DATA 0 })

/-- Give the buffer in slot `buf` back to the free-list of its type tag: the
handle is put at the tail of that list. For a type tag without a list
(`get_avail` returns `NULL`) no queue receives the handle and the state is
left as it is. -/
def bt_buf_put (p : Pool) (buf : Int) : Pool :=
  match get_avail (p.buffers buf).type with
  | none => p
  | some avail => p.setFifo avail (nano_fifo_put (p.fifo avail) buf)

/-- Extend the window at the tail by `len`: returns the old tail position and
the updated buffer. -/
def bt_buf_add (w : Nat) (b : bt_buf) (len : Nat) : Int × bt_buf :=
  let tail := b.data + (b.len : Int)
  (tail, { b with len := to_size_t w ((b.len : Int) + (len : Int)) })

/-- Extend the window at the head by `len`: returns the new data position and
the updated buffer. -/
def bt_buf_push (w : Nat) (b : bt_buf) (len : Nat) : Int × bt_buf :=
  let data := b.data - (len : Int)
  (data, { b with data := data, len := to_size_t w ((b.len : Int) + (len : Int)) })

/-- Remove `len` bytes from the head of the window: the length is decreased,
the data pointer is advanced, and the advanced pointer is returned. -/
def bt_buf_pull (w : Nat) (b : bt_buf) (len : Nat) : Int × bt_buf :=
  let data := b.data + (len : Int)
  (data, { b with data := data, len := to_size_t w ((b.len : Int) - (len : Int)) })

/-- Bytes before the window: the pointer difference `data - buf` as `size_t`. -/
def bt_buf_headroom (w : Nat) (b : bt_buf) : Nat := to_size_t w b.data

/-- Bytes after the window: `BT_BUF_MAX_DATA - headroom - len` in `size_t`
arithmetic. -/
def bt_buf_tailroom (BT_BUF_MAX_DATA w : Nat) (b : bt_buf) : Nat :=
  to_size_t w
    ((to_size_t w ((BT_BUF_MAX_DATA : Int) - (bt_buf_headroom w b : Int)) : Int)
      - (b.len : Int))

/-- The first two loops of `bt_buf_init`: while the count `n` is positive, put
`&buffers[i]` on the queue, increment `i` and decrement `n`. Returns the final
`i` and the queue. -/
def init_fill_count (i n : Int) (q : nano_fifo) : Int × nano_fifo :=
  if 0 < n then init_fill_count (i + 1) (n - 1) (nano_fifo_put q i) else (i, q)
termination_by n.toNat
decreasing_by omega

/-- The last loop of `bt_buf_init`: while `i < NUM_BUFS`, put `&buffers[i]` on
the queue and increment `i`. -/
def init_fill_rest (i : Int) (q : nano_fifo) : nano_fifo :=
  if i < NUM_BUFS then init_fill_rest (i + 1) (nano_fifo_put q i) else q
termination_by (NUM_BUFS - i).toNat
decreasing_by unfold NUM_BUFS at *; omega

/-- Initialise the three free-lists: `-EINVAL` and an untouched state when
`acl_out + acl_in >= NUM_BUFS - 2`; otherwise the slots are dealt in index
order to the inbound list, the outbound list and the command/event list, and
the result is `0`. The sum of the check is the mathematical one: it is the
sum the C code computes whenever that sum is an `int` value (see `int_add`
and `init_check` for the other case). -/
def bt_buf_init (p : Pool) (acl_in acl_out : Int) : Int × Pool :=
  if acl_out + acl_in ≥ NUM_BUFS - 2 then (-EINVAL, p)
  else
    let r1 := init_fill_count 0 acl_in nano_fifo_init
    let r2 := init_fill_count r1.1 acl_out nano_fifo_init
    let q3 := init_fill_rest r2.1 nano_fifo_init
    (0, { p with avail_acl_in := r1.2, avail_acl_out := r2.2, avail_hci := q3 })

/-- Smallest value of `int` on the 32-bit targets. -/
def INT_MIN : Int := -2147483648

/-- Largest value of `int` on the 32-bit targets. -/
def INT_MAX : Int := 2147483647

/-- Addition of two `int` values as the two's-complement 32-bit targets
compute it: the sum reduced into `INT_MIN .. INT_MAX`. It is the mathematical
sum whenever that is an `int` value; ISO C leaves the other case undefined. -/
def int_add (a b : Int) : Int := (a + b - INT_MIN) % 2 ^ 32 + INT_MIN

/-- The check at the head of `bt_buf_init`,
`acl_out + acl_in >= NUM_BUFS - 2`, with the sum taken in `int` arithmetic:
`true` when the call is refused with `-EINVAL`. -/
def init_check (acl_in acl_out : Int) : Bool :=
  decide (int_add acl_out acl_in ≥ NUM_BUFS - 2)

/-! ## Vocabulary of the properties -/

/-- Window invariant of a buffer with storage capacity `C`: the data pointer is
not before the storage and the window ends inside it. -/
def window_ok (C : Nat) (b : bt_buf) : Prop :=
  0 ≤ b.data ∧ b.data + (b.len : Int) ≤ (C : Int)

instance (C : Nat) (b : bt_buf) : Decidable (window_ok C b) := by
  unfold window_ok; infer_instance

/-- Number of occurrences of the handle `i` in the three free-lists together. -/
def Pool.occurrences (p : Pool) (i : Int) : Nat :=
  p.avail_acl_in.count i + p.avail_acl_out.count i + p.avail_hci.count i

/-- One call of a window-editing function on a buffer. -/
inductive win_op where
  | add (len : Nat)
  | push (len : Nat)
  | pull (len : Nat)
  deriving DecidableEq, Repr

/-- The buffer after the call. -/
def win_op.apply (w : Nat) (b : bt_buf) : win_op → bt_buf
  | .add len => (bt_buf_add w b len).2
  | .push len => (bt_buf_push w b len).2
  | .pull len => (bt_buf_pull w b len).2

/-- The stated precondition of the call on a buffer with capacity `C`:
enough tailroom for `add`, enough headroom for `push`, enough data for `pull`. -/
def win_op.pre (C : Nat) (b : bt_buf) : win_op → Prop
  | .add len => b.data + (b.len : Int) + (len : Int) ≤ (C : Int)
  | .push len => (len : Int) ≤ b.data
  | .pull len => len ≤ b.len

/-- Every call of the sequence is made with its precondition satisfied by the
buffer it is applied to. -/
def edits_pre (C w : Nat) : bt_buf → List win_op → Prop
  | _, [] => True
  | b, op :: ops => op.pre C b ∧ edits_pre C w (op.apply w b) ops

/-- The buffer before the first call and after each call of the sequence. -/
def edit_trace (w : Nat) : bt_buf → List win_op → List bt_buf
  | b, [] => [b]
  | b, op :: ops => b :: edit_trace w (op.apply w b) ops

instance (C : Nat) (b : bt_buf) (op : win_op) : Decidable (op.pre C b) := by
  cases op <;> unfold win_op.pre <;> infer_instance

instance edits_pre_decidable (C w : Nat) : ∀ (b : bt_buf) (ops : List win_op),
    Decidable (edits_pre C w b ops)
  | _, [] => isTrue trivial
  | b, op :: ops =>
    have := edits_pre_decidable C w (op.apply w b) ops
    by unfold edits_pre; infer_instance

/-- One call made by a client of the pool. -/
inductive pool_op where
  | get (type : bt_buf_type) (reserve_head : Nat)
  | put (buf : Int)
  deriving DecidableEq, Repr

/-- The pool state together with the handles that are checked out: returned by
a `bt_buf_get` and not yet given back by a `bt_buf_put`. -/
structure Session where
  pool : Pool
  held : List Int

/-- One client call: a `bt_buf_get` records the handle it returns as checked
out; a `bt_buf_put` is admitted only on a handle that is checked out. -/
def pool_step (C : Nat) (s : Session) : pool_op → Option Session
  | .get type reserve_head =>
    some
      { pool := (bt_buf_get C s.pool type reserve_head).2
        held :=
          match (bt_buf_get C s.pool type reserve_head).1 with
          | some h => h :: s.held
          | none => s.held }
  | .put buf =>
    if buf ∈ s.held then some { pool := bt_buf_put s.pool buf, held := s.held.erase buf }
    else none

/-- A sequence of client calls, from left to right. -/
def pool_run (C : Nat) : Session → List pool_op → Option Session
  | s, [] => some s
  | s, op :: ops =>
    match pool_step C s op with
    | none => none
    | some s' => pool_run C s' ops

/-- Consecutive `bt_buf_get` calls, one per request (type and head
reservation), with no `bt_buf_put` in between: the results in call order and
the final state. -/
def get_many (C : Nat) : Pool → List (bt_buf_type × Nat) → List (Option Int) × Pool
  | p, [] => ([], p)
  | p, (type, reserve_head) :: rest =>
    ((bt_buf_get C p type reserve_head).1
        :: (get_many C (bt_buf_get C p type reserve_head).2 rest).1,
      (get_many C (bt_buf_get C p type reserve_head).2 rest).2)

/-- Bookkeeping invariant of a session started from the state `p0`: every
handle is accounted for exactly as often as in `p0`, either as checked out or
in a free-list; a free-list holds only handles it held in `p0`; and the type
tag of a checked-out buffer routes to the free-list that held it in `p0`. -/
def session_inv (p0 : Pool) (s : Session) : Prop :=
  (∀ i : Int, s.held.count i + s.pool.occurrences i = p0.occurrences i) ∧
  (∀ (i : Int) (f : fifo_id), i ∈ s.pool.fifo f → i ∈ p0.fifo f) ∧
  (∀ i ∈ s.held, ∃ f, get_avail (s.pool.buffers i).type = some f ∧ i ∈ p0.fifo f)

/-- A state used to evaluate the functions on concrete inputs: every slot holds
left-over data of an earlier use, and each free-list holds a few handles. -/
def sample_pool : Pool where
  buffers := fun _ => { type := .BT_ACL_IN, data := 3, len := 7, buf := [1, 2, 3] }
  avail_hci := [10, 11]
  avail_acl_in := [0]
  avail_acl_out := [5, 6]

/-- The state after `bt_buf_init(5, 5)` on `sample_pool`. -/
def sample_init : Pool := (bt_buf_init sample_pool 5 5).2

/-- A client run on `sample_init`: take a command buffer, take an inbound
buffer, give the command buffer (slot 10) back, take an event buffer. -/
def sample_ops : List pool_op :=
  [.get .BT_CMD 8, .get .BT_ACL_IN 0, .put 10, .get .BT_EVT 4]

/-- The session after `sample_ops`: slots 11 and 0 are checked out. -/
def sample_session : Session where
  pool :=
    (bt_buf_get 64
      (bt_buf_put (bt_buf_get 64 (bt_buf_get 64 sample_init .BT_CMD 8).2 .BT_ACL_IN 0).2 10)
      .BT_EVT 4).2
  held := [11, 0]

/-- Five requests for inbound data buffers, with various head reservations. -/
def sample_reqs : List (bt_buf_type × Nat) :=
  [(.BT_ACL_IN, 0), (.BT_ACL_IN, 8), (.BT_ACL_IN, 0), (.BT_ACL_IN, 4), (.BT_ACL_IN, 64)]

/-- A buffer with capacity 64 whose window starts at offset 8 and is 20 bytes
long. -/
def sample_buf : bt_buf where
  type := .BT_CMD
  data := 8
  len := 20
  buf := List.replicate 64 0

/-- The buffer after all calls of the sequence, made from left to right. -/
def edit_all (w : Nat) : bt_buf → List win_op → bt_buf
  | b, [] => b
  | b, op :: ops => edit_all w (op.apply w b) ops

/-- One use of a buffer by a client: acquire it with `bt_buf_get(type, H1)`;
when a buffer is returned, edit its window by the calls `ops`, leave the
storage bytes `bytes` in it, and release it with `bt_buf_put`. The result is
the state after the release. -/
def get_edit_put (C w : Nat) (p : Pool) (type : bt_buf_type) (H1 : Nat)
    (ops : List win_op) (bytes : List Nat) : Pool :=
  match (bt_buf_get C p type H1).1 with
  | none => (bt_buf_get C p type H1).2
  | some h =>
    bt_buf_put
      ((bt_buf_get C p type H1).2.setBuf h
        { edit_all w ((bt_buf_get C p type H1).2.buffers h) ops with buf := bytes })
      h

/-! ## Auxiliary facts -/

theorem init_fill_count_eq (n : Nat) : ∀ (i c : Int) (q : nano_fifo), c.toNat = n →
    init_fill_count i c q
      = (i + (n : Int), q ++ (List.range n).map (fun k : Nat => i + (k : Int))) := by
  induction n with
  | zero =>
    intro i c q hc
    rw [init_fill_count, if_neg (by omega)]
    simp
  | succ n ih =>
    intro i c q hc
    rw [init_fill_count, if_pos (by omega), ih (i + 1) (c - 1) _ (by omega)]
    simp only [nano_fifo_put, List.range_succ_eq_map, List.map_cons, List.map_map,
      List.append_assoc, List.singleton_append, Prod.mk.injEq]
    refine ⟨by push_cast; ring, ?_⟩
    congr 2
    · simp
    · apply List.map_congr_left
      intro k _
      simp only [Function.comp, Nat.succ_eq_add_one]
      push_cast; ring

theorem init_fill_rest_eq (n : Nat) : ∀ (i : Int) (q : nano_fifo), (NUM_BUFS - i).toNat = n →
    init_fill_rest i q = q ++ (List.range n).map (fun k : Nat => i + (k : Int)) := by
  induction n with
  | zero =>
    intro i q hc
    rw [init_fill_rest, if_neg (by omega)]
    simp
  | succ n ih =>
    intro i q hc
    rw [init_fill_rest, if_pos (by omega), ih (i + 1) _ (by omega)]
    simp only [nano_fifo_put, List.range_succ_eq_map, List.map_cons, List.map_map,
      List.append_assoc, List.singleton_append]
    congr 2
    · simp
    · apply List.map_congr_left
      intro k _
      simp only [Function.comp, Nat.succ_eq_add_one]
      push_cast; ring

theorem count_index_run (s i : Int) (n : Nat) :
    ((List.range n).map (fun k : Nat => i + (k : Int))).count s
      = if i ≤ s ∧ s < i + (n : Int) then 1 else 0 := by
  induction n with
  | zero =>
    simp only [List.range_zero, List.map_nil, List.count_nil]
    rw [if_neg (by push_cast; omega)]
  | succ n ih =>
    rw [List.range_succ, List.map_append, List.count_append, ih]
    simp only [List.map_cons, List.map_nil, List.count_singleton, beq_iff_eq]
    by_cases h1 : i ≤ s ∧ s < i + (n : Int)
    · rw [if_pos h1, if_neg (by omega), if_pos (by push_cast; omega)]
    · by_cases h2 : i + (n : Int) = s
      · rw [if_neg h1, if_pos h2, if_pos (by push_cast; omega)]
      · rw [if_neg h1, if_neg h2, if_neg (by push_cast; omega)]

theorem to_size_t_of_lt (w : Nat) (x : Int) (h0 : 0 ≤ x) (h1 : x < (2 : Int) ^ w) :
    (to_size_t w x : Int) = x := by
  unfold to_size_t
  rw [Int.emod_eq_of_lt h0 h1]
  omega

theorem to_size_t_le (w : Nat) (x : Int) (h0 : 0 ≤ x) : (to_size_t w x : Int) ≤ x := by
  unfold to_size_t
  have hpos : (0 : Int) < (2 : Int) ^ w := by positivity
  have h1 : 0 ≤ x % (2 : Int) ^ w := Int.emod_nonneg _ (ne_of_gt hpos)
  have h2 : x % (2 : Int) ^ w ≤ x := by
    obtain ⟨n, rfl⟩ := Int.eq_ofNat_of_zero_le h0
    have : ((2 : Int) ^ w) = (((2 : Nat) ^ w : Nat) : Int) := by push_cast; rfl
    rw [this, ← Int.natCast_mod]
    exact_mod_cast Nat.mod_le _ _
  omega

theorem cast_pow_lt (C w : Nat) (h : C < 2 ^ w) : (C : Int) < (2 : Int) ^ w := by
  exact_mod_cast h

theorem bt_buf_init_lists (p : Pool) (a b : Int) (h : b + a < NUM_BUFS - 2) :
    (bt_buf_init p a b).1 = 0 ∧ (bt_buf_init p a b).2.buffers = p.buffers ∧
    (bt_buf_init p a b).2.avail_acl_in
      = (List.range a.toNat).map (fun k : Nat => (0 : Int) + (k : Int)) ∧
    (bt_buf_init p a b).2.avail_acl_out
      = (List.range b.toNat).map (fun k : Nat => ((0 : Int) + (a.toNat : Int)) + (k : Int)) ∧
    (bt_buf_init p a b).2.avail_hci
      = (List.range (NUM_BUFS - ((0 : Int) + (a.toNat : Int) + (b.toNat : Int))).toNat).map
          (fun k : Nat => ((0 : Int) + (a.toNat : Int) + (b.toNat : Int)) + (k : Int)) := by
  unfold bt_buf_init
  rw [if_neg (by omega)]
  simp only [init_fill_count_eq a.toNat 0 a _ rfl, init_fill_count_eq b.toNat _ b _ rfl,
    init_fill_rest_eq _ _ _ rfl, nano_fifo_init, List.nil_append, and_self]

theorem bt_buf_init_occurrences (p : Pool) (a b : Int) (h : b + a < NUM_BUFS - 2) (s : Int) :
    (bt_buf_init p a b).2.occurrences s
      = if 0 ≤ s ∧ (s < NUM_BUFS ∨ s < (a.toNat : Int) + (b.toNat : Int)) then 1 else 0 := by
  obtain ⟨_, _, h1, h2, h3⟩ := bt_buf_init_lists p a b h
  unfold Pool.occurrences
  rw [h1, h2, h3, count_index_run, count_index_run, count_index_run]
  unfold NUM_BUFS at *
  split_ifs <;> omega

theorem bt_buf_get_some (C : Nat) (p : Pool) (type : bt_buf_type) (H : Nat) (h : Int)
    (hget : (bt_buf_get C p type H).1 = some h) :
    ∃ f q, get_avail type = some f ∧ p.fifo f = h :: q ∧
      bt_buf_get C p type H
        = (some h, (p.setFifo f q).setBuf h
            { type := type, data := (H : Int), len := 0, buf := List.replicate C 0 }) := by
  unfold bt_buf_get at hget ⊢
  cases hf : get_avail type with
  | none => simp [hf] at hget
  | some f =>
    cases hq : p.fifo f with
    | nil => simp [hf, hq, nano_fifo_get] at hget
    | cons x q =>
      simp only [hf, hq, nano_fifo_get, Option.some.injEq] at hget
      subst hget
      exact ⟨f, q, rfl, hq, by simp [hq, nano_fifo_get]⟩

theorem setBuf_buffers_self (p : Pool) (i : Int) (b : bt_buf) :
    (p.setBuf i b).buffers i = b := by
  simp [Pool.setBuf]

theorem headroom_of_window_ok (C w : Nat) (b : bt_buf) (hC : C < 2 ^ w)
    (hok : window_ok C b) : (bt_buf_headroom w b : Int) = b.data := by
  have := cast_pow_lt C w hC
  obtain ⟨h0, h1⟩ := hok
  exact to_size_t_of_lt w b.data h0 (by omega)

theorem tailroom_of_window_ok (C w : Nat) (b : bt_buf) (hC : C < 2 ^ w)
    (hok : window_ok C b) :
    (bt_buf_tailroom C w b : Int) = (C : Int) - b.data - (b.len : Int) := by
  have hc := cast_pow_lt C w hC
  have hh := headroom_of_window_ok C w b hC hok
  obtain ⟨h0, h1⟩ := hok
  have h2 : (to_size_t w ((C : Int) - (bt_buf_headroom w b : Int)) : Int) = (C : Int) - b.data := by
    rw [hh]
    exact to_size_t_of_lt w _ (by omega) (by omega)
  unfold bt_buf_tailroom
  rw [h2]
  exact to_size_t_of_lt w _ (by omega) (by omega)

theorem win_op_preserves (C w : Nat) (b : bt_buf) (op : win_op)
    (hok : window_ok C b) (hpre : op.pre C b) : window_ok C (op.apply w b) := by
  obtain ⟨h0, h1⟩ := hok
  cases op with
  | add n =>
    have hle := to_size_t_le w ((b.len : Int) + (n : Int)) (by omega)
    simp only [win_op.pre] at hpre
    simp only [win_op.apply, bt_buf_add, window_ok]
    omega
  | push n =>
    have hle := to_size_t_le w ((b.len : Int) + (n : Int)) (by omega)
    simp only [win_op.pre] at hpre
    simp only [win_op.apply, bt_buf_push, window_ok]
    omega
  | pull n =>
    simp only [win_op.pre] at hpre
    have hle := to_size_t_le w ((b.len : Int) - (n : Int)) (by omega)
    simp only [win_op.apply, bt_buf_pull, window_ok]
    omega

theorem edit_trace_ok (C w : Nat) (ops : List win_op) : ∀ (b : bt_buf),
    window_ok C b → edits_pre C w b ops → ∀ x ∈ edit_trace w b ops, window_ok C x := by
  induction ops with
  | nil =>
    intro b hok _ x hx
    simp only [edit_trace, List.mem_singleton] at hx
    exact hx ▸ hok
  | cons op ops ih =>
    intro b hok hpre x hx
    simp only [edit_trace, List.mem_cons] at hx
    rcases hx with hx | hx
    · exact hx ▸ hok
    · exact ih (op.apply w b) (win_op_preserves C w b op hok hpre.1) hpre.2 x hx

theorem bt_buf_get_none (C : Nat) (p : Pool) (type : bt_buf_type) (H : Nat)
    (hget : (bt_buf_get C p type H).1 = none) : (bt_buf_get C p type H).2 = p := by
  unfold bt_buf_get at hget ⊢
  cases hf : get_avail type with
  | none => simp
  | some f =>
    cases hq : p.fifo f with
    | nil => simp [hq, nano_fifo_get]
    | cons x q => simp [hf, hq, nano_fifo_get] at hget

theorem occurrences_setFifo (p : Pool) (f : fifo_id) (q : nano_fifo) (i : Int) :
    (p.setFifo f q).occurrences i + (p.fifo f).count i = p.occurrences i + q.count i := by
  cases f <;> simp only [Pool.setFifo, Pool.occurrences, Pool.fifo] <;> omega

theorem fifo_setFifo (p : Pool) (f g : fifo_id) (q : nano_fifo) :
    (p.setFifo f q).fifo g = if g = f then q else p.fifo g := by
  cases f <;> cases g <;> simp [Pool.setFifo, Pool.fifo]

theorem occurrences_ge_count (p : Pool) (f : fifo_id) (i : Int) :
    (p.fifo f).count i ≤ p.occurrences i := by
  cases f <;> simp only [Pool.occurrences, Pool.fifo] <;> omega

theorem bt_buf_init_ok (p : Pool) (a b : Int) (h : (bt_buf_init p a b).1 = 0) :
    b + a < NUM_BUFS - 2 := by
  by_contra hc
  unfold bt_buf_init at h
  rw [if_pos (by omega)] at h
  have h' : -EINVAL = 0 := h
  revert h'
  decide

theorem session_inv_start (p0 : Pool) : session_inv p0 ⟨p0, []⟩ := by
  refine ⟨fun i => by simp, fun i f h => h, fun i hi => ?_⟩
  simp at hi

theorem session_inv_step (C : Nat) (p0 : Pool) (s s' : Session) (op : pool_op)
    (h1 : ∀ i : Int, p0.occurrences i ≤ 1)
    (hinv : session_inv p0 s) (hstep : pool_step C s op = some s') : session_inv p0 s' := by
  obtain ⟨I1, I2, I3⟩ := hinv
  cases op with
  | get type r =>
    simp only [pool_step, Option.some.injEq] at hstep
    subst hstep
    cases hg : (bt_buf_get C s.pool type r).1 with
    | none =>
      rw [bt_buf_get_none C s.pool type r hg]
      exact ⟨I1, I2, I3⟩
    | some h =>
      obtain ⟨f, q, hf, hq, heq⟩ := bt_buf_get_some C s.pool type r h hg
      have hmem : h ∈ s.pool.fifo f := by rw [hq]; exact List.mem_cons_self _ _
      have hnot : s.held.count h = 0 := by
        have := I1 h
        have := h1 h
        have := occurrences_ge_count s.pool f h
        have : 1 ≤ (s.pool.fifo f).count h := List.one_le_count_iff.mpr hmem
        omega
      simp only [heq]
      refine ⟨fun i => ?_, fun i g hi => ?_, fun i hi => ?_⟩
      · have ho := occurrences_setFifo s.pool f q i
        have hI := I1 i
        rw [hq, List.count_cons] at ho
        show (h :: s.held).count i + (s.pool.setFifo f q).occurrences i = _
        rw [List.count_cons]
        omega
      · have hi' : i ∈ (s.pool.setFifo f q).fifo g := hi
        rw [fifo_setFifo] at hi'
        by_cases hgf : g = f
        · rw [if_pos hgf] at hi'
          subst hgf
          exact I2 i g (by rw [hq]; exact List.mem_cons_of_mem _ hi')
        · rw [if_neg hgf] at hi'
          exact I2 i g hi'
      · by_cases hih : i = h
        · subst hih
          refine ⟨f, ?_, I2 i f hmem⟩
          simp only [setBuf_buffers_self]
          exact hf
        · have hi' : i ∈ s.held := by
            rcases List.mem_cons.mp hi with h' | h'
            · exact absurd h' hih
            · exact h'
          obtain ⟨f', hf', hm'⟩ := I3 i hi'
          refine ⟨f', ?_, hm'⟩
          have : ((s.pool.setFifo f q).setBuf h
              { type := type, data := (r : Int), len := 0, buf := List.replicate C 0 }).buffers i
              = s.pool.buffers i := by
            cases f <;> simp [Pool.setBuf, Pool.setFifo, hih]
          rw [this]
          exact hf'
  | put h =>
    simp only [pool_step] at hstep
    by_cases hh : h ∈ s.held
    · rw [if_pos hh] at hstep
      simp only [Option.some.injEq] at hstep
      subst hstep
      obtain ⟨f, hf, hm⟩ := I3 h hh
      have hput : bt_buf_put s.pool h = s.pool.setFifo f (s.pool.fifo f ++ [h]) := by
        simp [bt_buf_put, hf, nano_fifo_put]
      simp only [hput]
      refine ⟨fun i => ?_, fun i g hi => ?_, fun i hi => ?_⟩
      · have ho := occurrences_setFifo s.pool f (s.pool.fifo f ++ [h]) i
        have hI := I1 i
        rw [List.count_append, List.count_singleton] at ho
        rw [List.count_erase]
        have hc : 1 ≤ s.held.count h := List.one_le_count_iff.mpr hh
        by_cases hih : h = i
        · subst hih
          simp only [beq_self_eq_true, if_true] at ho ⊢
          omega
        · have : (h == i) = false := by simpa using hih
          simp only [this] at ho ⊢
          simp only [Bool.false_eq_true, if_false] at ho ⊢
          omega
      · rw [fifo_setFifo] at hi
        by_cases hgf : g = f
        · rw [if_pos hgf] at hi
          subst hgf
          rcases List.mem_append.mp hi with h' | h'
          · exact I2 i g h'
          · rw [List.mem_singleton.mp h']
            exact hm
        · rw [if_neg hgf] at hi
          exact I2 i g hi
      · obtain ⟨f', hf', hm'⟩ := I3 i (List.mem_of_mem_erase hi)
        refine ⟨f', ?_, hm'⟩
        have : (s.pool.setFifo f (s.pool.fifo f ++ [h])).buffers i = s.pool.buffers i := by
          cases f <;> rfl
        rw [this]
        exact hf'
    · rw [if_neg hh] at hstep
      simp at hstep

theorem session_inv_run (C : Nat) (p0 : Pool) (h1 : ∀ i : Int, p0.occurrences i ≤ 1)
    (ops : List pool_op) : ∀ (s s' : Session), session_inv p0 s →
      pool_run C s ops = some s' → session_inv p0 s' := by
  induction ops with
  | nil =>
    intro s s' hinv hrun
    simp only [pool_run, Option.some.injEq] at hrun
    exact hrun ▸ hinv
  | cons op ops ih =>
    intro s s' hinv hrun
    simp only [pool_run] at hrun
    cases hs : pool_step C s op with
    | none => simp [hs] at hrun
    | some s1 =>
      simp only [hs] at hrun
      exact ih s1 s' (session_inv_step C p0 s s1 op h1 hinv hs) hrun

theorem bt_buf_init_occurrences_le (p : Pool) (a b : Int) (h : (bt_buf_init p a b).1 = 0)
    (i : Int) : (bt_buf_init p a b).2.occurrences i ≤ 1 := by
  rw [bt_buf_init_occurrences p a b (bt_buf_init_ok p a b h)]
  split_ifs <;> omega

theorem bt_buf_init_occurrences_slot (p : Pool) (a b : Int) (h : (bt_buf_init p a b).1 = 0)
    (i : Int) (h0 : 0 ≤ i) (h1 : i < NUM_BUFS) : (bt_buf_init p a b).2.occurrences i = 1 := by
  rw [bt_buf_init_occurrences p a b (bt_buf_init_ok p a b h)]
  rw [if_pos ⟨h0, Or.inl h1⟩]

theorem get_many_spec (C : Nat) (f : fifo_id) (reqs : List (bt_buf_type × Nat)) :
    ∀ p : Pool, (∀ x ∈ reqs, get_avail x.1 = some f) → reqs.length ≤ (p.fifo f).length →
      (get_many C p reqs).1 = ((p.fifo f).take reqs.length).map some ∧
      (get_many C p reqs).2.fifo f = (p.fifo f).drop reqs.length := by
  induction reqs with
  | nil =>
    intro p _ _
    simp [get_many]
  | cons x rest ih =>
    intro p hcls hlen
    obtain ⟨type, r⟩ := x
    have hf : get_avail type = some f := hcls (type, r) (List.mem_cons_self _ _)
    cases hq : p.fifo f with
    | nil => simp [hq] at hlen
    | cons h q =>
      have hg : bt_buf_get C p type r
          = (some h, (p.setFifo f q).setBuf h
              { type := type, data := (r : Int), len := 0, buf := List.replicate C 0 }) := by
        simp [bt_buf_get, hf, hq, nano_fifo_get]
      have hfq : ((p.setFifo f q).setBuf h
          { type := type, data := (r : Int), len := 0, buf := List.replicate C 0 }).fifo f = q := by
        show (p.setFifo f q).fifo f = q
        rw [fifo_setFifo, if_pos rfl]
      have hlen' : rest.length ≤ q.length := by
        rw [hq] at hlen
        simpa using hlen
      have := ih _ (fun y hy => hcls y (List.mem_cons_of_mem _ hy)) (hfq ▸ hlen')
      simp only [get_many, hg, List.length_cons, List.take_succ_cons, List.map_cons,
        List.drop_succ_cons]
      rw [this.1, this.2, hfq]
      exact ⟨rfl, rfl⟩

theorem sample_init_eq :
    bt_buf_init sample_pool 5 5
      = (0, { sample_pool with
                avail_acl_in := [0, 1, 2, 3, 4]
                avail_acl_out := [5, 6, 7, 8, 9]
                avail_hci := [10, 11, 12, 13, 14, 15, 16, 17, 18, 19] }) := by
  simp [bt_buf_init, init_fill_count, init_fill_rest, NUM_BUFS, nano_fifo_put, nano_fifo_init]

/-! ## Initialisation -/

/-- C1, as the code has it: for non-negative counts with
`acl_in + acl_out < NUM_BUFS - 2`, `bt_buf_init` returns 0 and afterwards every
handle occurs in the three free-lists together exactly once when it is one of
the `NUM_BUFS` slots, and not at all otherwise. -/
theorem bt_buf_init_partition (p : Pool) (acl_in acl_out : Int)
    (hin : 0 ≤ acl_in) (hout : 0 ≤ acl_out) (h : acl_in + acl_out < NUM_BUFS - 2) :
    (bt_buf_init p acl_in acl_out).1 = 0 ∧
    ∀ s : Int, (bt_buf_init p acl_in acl_out).2.occurrences s
      = if 0 ≤ s ∧ s < NUM_BUFS then 1 else 0 := by
  refine ⟨(bt_buf_init_lists p acl_in acl_out (by omega)).1, fun s => ?_⟩
  rw [bt_buf_init_occurrences p acl_in acl_out (by omega)]
  unfold NUM_BUFS at *
  split_ifs <;> omega

/-- Instance of `bt_buf_init_partition` for `bt_buf_init(5, 5)`. -/
theorem bt_buf_init_partition_witness :
    (bt_buf_init sample_pool 5 5).1 = 0 ∧
    ∀ s : Int, (bt_buf_init sample_pool 5 5).2.occurrences s
      = if 0 ≤ s ∧ s < NUM_BUFS then 1 else 0 :=
  bt_buf_init_partition sample_pool 5 5 (by decide) (by decide) (by decide)

/-- C1 as stated fails at the boundary: `bt_buf_init(9, 9)` has
`9 + 9 ≤ NUM_BUFS - 2`, yet the call returns `-EINVAL`, not 0. -/
theorem bt_buf_init_boundary_rejected :
    (0 : Int) ≤ 9 ∧ (9 : Int) + 9 ≤ NUM_BUFS - 2 ∧
    (bt_buf_init sample_pool 9 9).1 = -EINVAL ∧ (bt_buf_init sample_pool 9 9).1 ≠ 0 := by
  refine ⟨by decide, by decide, ?_, ?_⟩ <;>
    simp [bt_buf_init, NUM_BUFS, EINVAL]

/-- Where the sum of the counts does not overflow, the check works on the
mathematical sum: for counts with `NUM_BUFS - 2 < acl_in + acl_out ≤ INT_MAX`
the sum in `int` arithmetic is the mathematical sum, the check fires, and
`bt_buf_init` returns `-EINVAL` (a non-zero result) with the state after the
call being the state before it: no free-list has been initialised or filled. -/
theorem bt_buf_init_too_many (p : Pool) (acl_in acl_out : Int)
    (hsum : acl_in + acl_out ≤ INT_MAX)
    (h : acl_in + acl_out > NUM_BUFS - 2) :
    int_add acl_out acl_in = acl_out + acl_in ∧
    init_check acl_in acl_out = true ∧
    bt_buf_init p acl_in acl_out = (-EINVAL, p) ∧ (bt_buf_init p acl_in acl_out).1 ≠ 0 := by
  have hc : acl_out + acl_in ≥ NUM_BUFS - 2 := by omega
  have hadd : int_add acl_out acl_in = acl_out + acl_in := by
    unfold int_add INT_MIN
    unfold INT_MAX at hsum
    unfold NUM_BUFS at h
    omega
  refine ⟨hadd, ?_, ?_⟩
  · unfold init_check
    rw [hadd]
    exact decide_eq_true hc
  · unfold bt_buf_init
    rw [if_pos hc]
    refine ⟨rfl, ?_⟩
    show -EINVAL ≠ 0
    decide

/-- Instance of `bt_buf_init_too_many` for `bt_buf_init(10, 10)`. -/
theorem bt_buf_init_too_many_witness :
    int_add 10 10 = 10 + 10 ∧
    init_check 10 10 = true ∧
    bt_buf_init sample_pool 10 10 = (-EINVAL, sample_pool) ∧
    (bt_buf_init sample_pool 10 10).1 ≠ 0 :=
  bt_buf_init_too_many sample_pool 10 10 (by decide) (by decide)

/-- C9 fails on the code at `bt_buf_init(2147483647, 1)`: both counts are `int`
values and their sum 2147483648 is above `NUM_BUFS - 2`, but the sum in `int`
arithmetic is -2147483648, so the check `acl_out + acl_in >= NUM_BUFS - 2`
does not fire: the call is not refused with `-EINVAL` and goes on to fill the
free-lists. -/
theorem bt_buf_init_check_overflow :
    (INT_MIN ≤ 2147483647 ∧ (2147483647 : Int) ≤ INT_MAX) ∧
    (INT_MIN ≤ 1 ∧ (1 : Int) ≤ INT_MAX) ∧
    (2147483647 : Int) + 1 > NUM_BUFS - 2 ∧
    int_add 1 2147483647 = -2147483648 ∧
    init_check 2147483647 1 = false := by
  decide

/-! ## Acquiring a buffer -/

/-- C2: whenever `bt_buf_get(type, reserve_head)` with
`reserve_head ≤ BT_BUF_MAX_DATA` returns a buffer, every storage byte of that
buffer is zero, its type tag is the requested type, its data offset and its
`bt_buf_headroom` equal `reserve_head`, and its length is 0, whatever the state
held before. -/
theorem bt_buf_get_fresh (C w : Nat) (p : Pool) (type : bt_buf_type) (H : Nat) (h : Int)
    (hC : C < 2 ^ w) (hH : H ≤ C) (hget : (bt_buf_get C p type H).1 = some h) :
    ((bt_buf_get C p type H).2.buffers h).buf = List.replicate C 0 ∧
    ((bt_buf_get C p type H).2.buffers h).type = type ∧
    ((bt_buf_get C p type H).2.buffers h).data = (H : Int) ∧
    bt_buf_headroom w ((bt_buf_get C p type H).2.buffers h) = H ∧
    ((bt_buf_get C p type H).2.buffers h).len = 0 := by
  obtain ⟨f, q, _, _, heq⟩ := bt_buf_get_some C p type H h hget
  rw [heq]
  simp only [setBuf_buffers_self, true_and]
  have := to_size_t_of_lt w (H : Int) (by omega) (by have := cast_pow_lt C w hC; omega)
  unfold bt_buf_headroom
  exact ⟨by exact_mod_cast this, trivial⟩

/-- Instance of `bt_buf_get_fresh`: a command buffer with 8 bytes of headroom
taken from `sample_pool`, whose slots hold left-over data. -/
theorem bt_buf_get_fresh_witness :
    ((bt_buf_get 64 sample_pool .BT_CMD 8).2.buffers 10).buf = List.replicate 64 0 ∧
    ((bt_buf_get 64 sample_pool .BT_CMD 8).2.buffers 10).type = .BT_CMD ∧
    ((bt_buf_get 64 sample_pool .BT_CMD 8).2.buffers 10).data = ((8 : Nat) : Int) ∧
    bt_buf_headroom 32 ((bt_buf_get 64 sample_pool .BT_CMD 8).2.buffers 10) = 8 ∧
    ((bt_buf_get 64 sample_pool .BT_CMD 8).2.buffers 10).len = 0 :=
  bt_buf_get_fresh 64 32 sample_pool .BT_CMD 8 10 (by decide) (by decide) rfl

/-! ## Editing the data window -/

/-- C3: a buffer returned by `bt_buf_get` with
`reserve_head ≤ BT_BUF_MAX_DATA` and then edited by any finite sequence of
`bt_buf_add`, `bt_buf_push` and `bt_buf_pull` calls, each made with its
precondition satisfied, has `0 ≤ data offset` and `offset + len ≤
BT_BUF_MAX_DATA` at the start and after every call. -/
theorem window_invariant (C w : Nat) (p : Pool) (type : bt_buf_type) (H : Nat) (h : Int)
    (ops : List win_op) (hH : H ≤ C) (hget : (bt_buf_get C p type H).1 = some h)
    (hpre : edits_pre C w ((bt_buf_get C p type H).2.buffers h) ops) :
    ∀ b ∈ edit_trace w ((bt_buf_get C p type H).2.buffers h) ops, window_ok C b := by
  obtain ⟨f, q, _, _, heq⟩ := bt_buf_get_some C p type H h hget
  refine edit_trace_ok C w ops _ ?_ hpre
  rw [heq]
  simp only [setBuf_buffers_self, window_ok]
  omega

/-- Instance of `window_invariant`: a command buffer with headroom 8 and
capacity 64, then add 20, push 4, pull 6. -/
theorem window_invariant_witness :
    edits_pre 64 32 ((bt_buf_get 64 sample_pool .BT_CMD 8).2.buffers 10)
      [.add 20, .push 4, .pull 6] ∧
    ∀ b ∈ edit_trace 32 ((bt_buf_get 64 sample_pool .BT_CMD 8).2.buffers 10)
      [.add 20, .push 4, .pull 6], window_ok 64 b :=
  ⟨by decide,
   window_invariant 64 32 sample_pool .BT_CMD 8 10 [.add 20, .push 4, .pull 6]
     (by decide) rfl (by decide)⟩

/-- C7: for a buffer whose data pointer is not before its storage and a
length with `offset + len + n ≤ BT_BUF_MAX_DATA`, `bt_buf_add(buf, n)` returns
the position `offset + len` of the state before the call, increases `len` by
exactly `n` and leaves the data offset unchanged. -/
theorem bt_buf_add_spec (C w : Nat) (b : bt_buf) (n : Nat) (hC : C < 2 ^ w)
    (h0 : 0 ≤ b.data) (hpre : b.data + (b.len : Int) + (n : Int) ≤ (C : Int)) :
    (bt_buf_add w b n).1 = b.data + (b.len : Int) ∧
    (bt_buf_add w b n).2.len = b.len + n ∧
    (bt_buf_add w b n).2.data = b.data := by
  have hc := cast_pow_lt C w hC
  have hl := to_size_t_of_lt w ((b.len : Int) + (n : Int)) (by omega) (by omega)
  simp only [bt_buf_add, true_and, and_true]
  exact_mod_cast hl

/-- Instance of `bt_buf_add_spec`: adding 20 bytes to `sample_buf`. -/
theorem bt_buf_add_spec_witness :
    (bt_buf_add 32 sample_buf 20).1 = sample_buf.data + (sample_buf.len : Int) ∧
    (bt_buf_add 32 sample_buf 20).2.len = sample_buf.len + 20 ∧
    (bt_buf_add 32 sample_buf 20).2.data = sample_buf.data :=
  bt_buf_add_spec 64 32 sample_buf 20 (by decide) (by decide) (by decide)

/-- C8: for a buffer satisfying the window invariant and `n ≤ offset`,
`bt_buf_push(buf, n)` decreases the data offset by exactly `n`, increases `len`
by exactly `n`, and returns the new data offset, so that the end of the window
`offset + len` is unchanged. -/
theorem bt_buf_push_spec (C w : Nat) (b : bt_buf) (n : Nat) (hC : C < 2 ^ w)
    (hok : window_ok C b) (hpre : (n : Int) ≤ b.data) :
    (bt_buf_push w b n).2.data = b.data - (n : Int) ∧
    (bt_buf_push w b n).2.len = b.len + n ∧
    (bt_buf_push w b n).1 = (bt_buf_push w b n).2.data ∧
    (bt_buf_push w b n).2.data + ((bt_buf_push w b n).2.len : Int)
      = b.data + (b.len : Int) := by
  have hc := cast_pow_lt C w hC
  obtain ⟨h0, h1⟩ := hok
  have hl := to_size_t_of_lt w ((b.len : Int) + (n : Int)) (by omega) (by omega)
  simp only [bt_buf_push, true_and]
  refine ⟨by exact_mod_cast hl, ?_⟩
  rw [hl]
  ring

/-- Instance of `bt_buf_push_spec`: pushing 4 bytes onto `sample_buf`. -/
theorem bt_buf_push_spec_witness :
    (bt_buf_push 32 sample_buf 4).2.data = sample_buf.data - ((4 : Nat) : Int) ∧
    (bt_buf_push 32 sample_buf 4).2.len = sample_buf.len + 4 ∧
    (bt_buf_push 32 sample_buf 4).1 = (bt_buf_push 32 sample_buf 4).2.data ∧
    (bt_buf_push 32 sample_buf 4).2.data + ((bt_buf_push 32 sample_buf 4).2.len : Int)
      = sample_buf.data + (sample_buf.len : Int) :=
  bt_buf_push_spec 64 32 sample_buf 4 (by decide) (by decide) (by decide)

/-- C6, as the code has it: for a buffer whose `len` is a `size_t` value
and `n ≤ len`, `bt_buf_pull(buf, n)` advances the data offset by `n`, shrinks
`len` by `n`, and returns the data offset after the call, `offset + n`: the
position of the first byte after the skipped ones. -/
theorem bt_buf_pull_spec (w : Nat) (b : bt_buf) (n : Nat) (hlen : b.len < 2 ^ w)
    (hpre : n ≤ b.len) :
    (bt_buf_pull w b n).2.data = b.data + (n : Int) ∧
    (bt_buf_pull w b n).2.len = b.len - n ∧
    (bt_buf_pull w b n).1 = b.data + (n : Int) ∧
    (bt_buf_pull w b n).1 = (bt_buf_pull w b n).2.data := by
  have hc := cast_pow_lt b.len w hlen
  have hl := to_size_t_of_lt w ((b.len : Int) - (n : Int)) (by omega) (by omega)
  simp only [bt_buf_pull, true_and, and_true]
  omega

/-- Instance of `bt_buf_pull_spec`: pulling 4 bytes from `sample_buf`. -/
theorem bt_buf_pull_spec_witness :
    (bt_buf_pull 32 sample_buf 4).2.data = sample_buf.data + ((4 : Nat) : Int) ∧
    (bt_buf_pull 32 sample_buf 4).2.len = sample_buf.len - 4 ∧
    (bt_buf_pull 32 sample_buf 4).1 = sample_buf.data + ((4 : Nat) : Int) ∧
    (bt_buf_pull 32 sample_buf 4).1 = (bt_buf_pull 32 sample_buf 4).2.data :=
  bt_buf_pull_spec 32 sample_buf 4 (by decide) (by decide)

/-- C6 as stated fails: pulling 4 bytes from `sample_buf` (offset 8,
length 20) returns position 12, not the offset 8 the buffer had before the
call. -/
theorem bt_buf_pull_returns_new_offset :
    4 ≤ sample_buf.len ∧ sample_buf.data = 8 ∧ (bt_buf_pull 32 sample_buf 4).1 = 12 ∧
    (bt_buf_pull 32 sample_buf 4).1 ≠ sample_buf.data := by
  decide

/-- C5, as the code has it: `bt_buf_add` and `bt_buf_push` make no capacity
check. For a buffer satisfying the window invariant, `bt_buf_add` with
`len = tailroom + 1` returns the old tail position and leaves
`offset + len = BT_BUF_MAX_DATA + 1`, and `bt_buf_push` with
`len = headroom + 1` returns the position -1 and leaves the data offset at -1;
in both cases the window invariant no longer holds. -/
theorem capacity_overrun_unchecked (C w : Nat) (b : bt_buf) (hC : C + 1 < 2 ^ w)
    (hok : window_ok C b) :
    (bt_buf_add w b (bt_buf_tailroom C w b + 1)).1 = b.data + (b.len : Int) ∧
    (bt_buf_add w b (bt_buf_tailroom C w b + 1)).2.data
      + ((bt_buf_add w b (bt_buf_tailroom C w b + 1)).2.len : Int) = (C : Int) + 1 ∧
    ¬ window_ok C (bt_buf_add w b (bt_buf_tailroom C w b + 1)).2 ∧
    (bt_buf_push w b (bt_buf_headroom w b + 1)).1 = -1 ∧
    (bt_buf_push w b (bt_buf_headroom w b + 1)).2.data = -1 ∧
    ¬ window_ok C (bt_buf_push w b (bt_buf_headroom w b + 1)).2 := by
  have hc := cast_pow_lt (C + 1) w hC
  have hC1 : C < 2 ^ w := by omega
  have hh := headroom_of_window_ok C w b hC1 hok
  have ht := tailroom_of_window_ok C w b hC1 hok
  obtain ⟨h0, h1⟩ := hok
  have hl := to_size_t_of_lt w ((b.len : Int) + ((bt_buf_tailroom C w b + 1 : Nat) : Int))
    (by omega) (by push_cast at hc ⊢; omega)
  simp only [bt_buf_add, bt_buf_push, window_ok, true_and]
  rw [hl]
  push_cast
  refine ⟨by omega, by omega, by omega, by omega, by omega⟩

/-- Instance of `capacity_overrun_unchecked` at `sample_buf`. -/
theorem capacity_overrun_unchecked_witness :
    (bt_buf_add 32 sample_buf (bt_buf_tailroom 64 32 sample_buf + 1)).1
      = sample_buf.data + (sample_buf.len : Int) ∧
    (bt_buf_add 32 sample_buf (bt_buf_tailroom 64 32 sample_buf + 1)).2.data
      + ((bt_buf_add 32 sample_buf (bt_buf_tailroom 64 32 sample_buf + 1)).2.len : Int)
      = ((64 : Nat) : Int) + 1 ∧
    ¬ window_ok 64 (bt_buf_add 32 sample_buf (bt_buf_tailroom 64 32 sample_buf + 1)).2 ∧
    (bt_buf_push 32 sample_buf (bt_buf_headroom 32 sample_buf + 1)).1 = -1 ∧
    (bt_buf_push 32 sample_buf (bt_buf_headroom 32 sample_buf + 1)).2.data = -1 ∧
    ¬ window_ok 64 (bt_buf_push 32 sample_buf (bt_buf_headroom 32 sample_buf + 1)).2 :=
  capacity_overrun_unchecked 64 32 sample_buf (by decide) (by decide)

/-- C5 as stated fails: on `sample_buf` (capacity 64, offset 8, length
20, hence tailroom 36 and headroom 8) `bt_buf_add` with `len = 37` and
`bt_buf_push` with `len = 9` both return a position and move the window
outside the storage: the add leaves `offset + len = 65` and the push leaves the
offset at -1. -/
theorem capacity_overrun_not_rejected :
    window_ok 64 sample_buf ∧
    bt_buf_tailroom 64 32 sample_buf = 36 ∧
    (bt_buf_add 32 sample_buf (bt_buf_tailroom 64 32 sample_buf + 1)).2.data
      + ((bt_buf_add 32 sample_buf (bt_buf_tailroom 64 32 sample_buf + 1)).2.len : Int) = 65 ∧
    ¬ window_ok 64 (bt_buf_add 32 sample_buf (bt_buf_tailroom 64 32 sample_buf + 1)).2 ∧
    bt_buf_headroom 32 sample_buf = 8 ∧
    (bt_buf_push 32 sample_buf (bt_buf_headroom 32 sample_buf + 1)).2.data = -1 ∧
    ¬ window_ok 64 (bt_buf_push 32 sample_buf (bt_buf_headroom 32 sample_buf + 1)).2 := by
  decide

/-! ## The pool -/

/-- C4: in every state reached from a successful `bt_buf_init` by a sequence of
`bt_buf_get` calls and of `bt_buf_put` calls on checked-out handles, each of
the `NUM_BUFS` slots is either checked out and in no free-list, or not checked
out and exactly once in exactly one free-list, the one that held it after
initialisation; and a handle returned by a further `bt_buf_get` is not one
that is checked out. -/
theorem pool_partition_invariant (C : Nat) (p : Pool) (acl_in acl_out : Int)
    (ops : List pool_op) (s : Session)
    (hinit : (bt_buf_init p acl_in acl_out).1 = 0)
    (hrun : pool_run C ⟨(bt_buf_init p acl_in acl_out).2, []⟩ ops = some s) :
    (∀ i : Int, 0 ≤ i → i < NUM_BUFS →
      (i ∈ s.held ∧ ∀ f, i ∉ s.pool.fifo f) ∨
      (i ∉ s.held ∧ ∃ f, i ∈ (bt_buf_init p acl_in acl_out).2.fifo f ∧
        (s.pool.fifo f).count i = 1 ∧ ∀ g, g ≠ f → i ∉ s.pool.fifo g)) ∧
    (∀ (type : bt_buf_type) (reserve_head : Nat) (h : Int),
      (bt_buf_get C s.pool type reserve_head).1 = some h → h ∉ s.held) := by
  have hle := bt_buf_init_occurrences_le p acl_in acl_out hinit
  obtain ⟨I1, I2, _⟩ := session_inv_run C _ hle ops _ s (session_inv_start _) hrun
  constructor
  · intro i h0 h1
    have hone := bt_buf_init_occurrences_slot p acl_in acl_out hinit i h0 h1
    have hI := I1 i
    rw [hone] at hI
    by_cases hh : i ∈ s.held
    · left
      refine ⟨hh, fun f hf => ?_⟩
      have := List.one_le_count_iff.mpr hh
      have := List.one_le_count_iff.mpr hf
      have := occurrences_ge_count s.pool f i
      omega
    · right
      refine ⟨hh, ?_⟩
      have hz : s.held.count i = 0 := List.count_eq_zero.mpr hh
      have hocc : s.pool.occurrences i = 1 := by omega
      simp only [Pool.occurrences] at hocc
      have key : ∀ f, (s.pool.fifo f).count i = 1 →
          (∀ g, g ≠ f → (s.pool.fifo g).count i = 0) →
          ∃ f, i ∈ (bt_buf_init p acl_in acl_out).2.fifo f ∧
            (s.pool.fifo f).count i = 1 ∧ ∀ g, g ≠ f → i ∉ s.pool.fifo g := by
        intro f hf hg
        refine ⟨f, I2 i f (List.one_le_count_iff.mp (by omega)), hf, fun g hgf => ?_⟩
        exact List.count_eq_zero.mp (hg g hgf)
      by_cases ha : s.pool.avail_acl_in.count i = 1
      · refine key .avail_acl_in ha (fun g hg => ?_)
        cases g <;> simp only [Pool.fifo] <;> first | omega | exact absurd rfl hg
      · by_cases hb : s.pool.avail_acl_out.count i = 1
        · refine key .avail_acl_out hb (fun g hg => ?_)
          cases g <;> simp only [Pool.fifo] <;> first | omega | exact absurd rfl hg
        · refine key .avail_hci (by simp only [Pool.fifo]; omega) (fun g hg => ?_)
          cases g <;> simp only [Pool.fifo] <;> first | omega | exact absurd rfl hg
  · intro type r h hg hh
    obtain ⟨f, q, _, hq, _⟩ := bt_buf_get_some C s.pool type r h hg
    have hmem : h ∈ s.pool.fifo f := by rw [hq]; exact List.mem_cons_self _ _
    have := List.one_le_count_iff.mpr hh
    have := List.one_le_count_iff.mpr hmem
    have := occurrences_ge_count s.pool f h
    have := I1 h
    have := hle h
    omega

/-- Instance of `pool_partition_invariant`: the run `sample_ops` after
`bt_buf_init(5, 5)`, which ends in `sample_session`. -/
theorem pool_partition_invariant_witness :
    (bt_buf_init sample_pool 5 5).1 = 0 ∧
    pool_run 64 ⟨(bt_buf_init sample_pool 5 5).2, []⟩ sample_ops = some sample_session ∧
    (∀ i : Int, 0 ≤ i → i < NUM_BUFS →
      (i ∈ sample_session.held ∧ ∀ f, i ∉ sample_session.pool.fifo f) ∨
      (i ∉ sample_session.held ∧ ∃ f, i ∈ (bt_buf_init sample_pool 5 5).2.fifo f ∧
        (sample_session.pool.fifo f).count i = 1 ∧
        ∀ g, g ≠ f → i ∉ sample_session.pool.fifo g)) ∧
    (∀ (type : bt_buf_type) (reserve_head : Nat) (h : Int),
      (bt_buf_get 64 sample_session.pool type reserve_head).1 = some h →
        h ∉ sample_session.held) :=
  ⟨by simp [sample_init_eq],
   by simp [sample_session, sample_init, sample_ops, sample_init_eq, pool_run, pool_step,
        bt_buf_get, bt_buf_put, get_avail, nano_fifo_get, nano_fifo_put, Pool.fifo,
        Pool.setFifo, Pool.setBuf],
   pool_partition_invariant 64 sample_pool 5 5 sample_ops sample_session
     (by simp [sample_init_eq])
     (by simp [sample_session, sample_init, sample_ops, sample_init_eq, pool_run, pool_step,
        bt_buf_get, bt_buf_put, get_avail, nano_fifo_get, nano_fifo_put, Pool.fifo,
        Pool.setFifo, Pool.setBuf])⟩

/-- C10: after a successful `bt_buf_init`, when the free-list of a class holds
`k` handles (which are then pairwise distinct), `k` consecutive `bt_buf_get`
calls for that class with no `bt_buf_put` in between return those `k` handles,
and the next `bt_buf_get` for that class returns none. -/
theorem bt_buf_get_exhaustion (C : Nat) (p : Pool) (acl_in acl_out : Int) (f : fifo_id)
    (reqs : List (bt_buf_type × Nat))
    (hinit : (bt_buf_init p acl_in acl_out).1 = 0)
    (hcls : ∀ x ∈ reqs, get_avail x.1 = some f)
    (hk : reqs.length = ((bt_buf_init p acl_in acl_out).2.fifo f).length) :
    ((bt_buf_init p acl_in acl_out).2.fifo f).Nodup ∧
    (get_many C (bt_buf_init p acl_in acl_out).2 reqs).1
      = ((bt_buf_init p acl_in acl_out).2.fifo f).map some ∧
    ∀ (type : bt_buf_type) (reserve_head : Nat), get_avail type = some f →
      (bt_buf_get C (get_many C (bt_buf_init p acl_in acl_out).2 reqs).2 type reserve_head).1
        = none := by
  obtain ⟨h1, h2⟩ := get_many_spec C f reqs (bt_buf_init p acl_in acl_out).2 hcls (by omega)
  refine ⟨?_, ?_, fun type r hf => ?_⟩
  · rw [List.nodup_iff_count_le_one]
    intro i
    exact le_trans (occurrences_ge_count _ f i)
      (bt_buf_init_occurrences_le p acl_in acl_out hinit i)
  · rw [h1, hk, List.take_length]
  · rw [hk, List.drop_length] at h2
    simp [bt_buf_get, hf, h2, nano_fifo_get]

/-- Instance of `bt_buf_get_exhaustion`: after `bt_buf_init(5, 5)` the inbound
list holds 5 handles; the 5 requests of `sample_reqs` are served and a sixth
request is not. -/
theorem bt_buf_get_exhaustion_witness :
    (bt_buf_init sample_pool 5 5).1 = 0 ∧
    (∀ x ∈ sample_reqs, get_avail x.1 = some .avail_acl_in) ∧
    sample_reqs.length = ((bt_buf_init sample_pool 5 5).2.fifo .avail_acl_in).length ∧
    ((bt_buf_init sample_pool 5 5).2.fifo .avail_acl_in).Nodup ∧
    (get_many 64 (bt_buf_init sample_pool 5 5).2 sample_reqs).1
      = ((bt_buf_init sample_pool 5 5).2.fifo .avail_acl_in).map some ∧
    ∀ (type : bt_buf_type) (reserve_head : Nat), get_avail type = some .avail_acl_in →
      (bt_buf_get 64 (get_many 64 (bt_buf_init sample_pool 5 5).2 sample_reqs).2
        type reserve_head).1 = none :=
  ⟨by simp [sample_init_eq],
   by decide,
   by simp [sample_init_eq, sample_reqs, Pool.fifo],
   bt_buf_get_exhaustion 64 sample_pool 5 5 .avail_acl_in sample_reqs
     (by simp [sample_init_eq]) (by decide) (by simp [sample_init_eq, sample_reqs, Pool.fifo])⟩

/-! ## Releasing a buffer and class routing -/

/-- C11: for a buffer whose type tag selects the free-list `f`,
`bt_buf_put` appends the handle at the tail of `f` and of no other list: the
other two free-lists are unchanged, and so are the data offset, the length,
the type tag and the storage bytes of every buffer. -/
theorem bt_buf_put_frame (p : Pool) (buf : Int) (f : fifo_id)
    (hf : get_avail (p.buffers buf).type = some f) :
    (bt_buf_put p buf).fifo f = p.fifo f ++ [buf] ∧
    (∀ g, g ≠ f → (bt_buf_put p buf).fifo g = p.fifo g) ∧
    (bt_buf_put p buf).buffers = p.buffers := by
  have hput : bt_buf_put p buf = p.setFifo f (p.fifo f ++ [buf]) := by
    simp [bt_buf_put, hf, nano_fifo_put]
  rw [hput]
  refine ⟨?_, fun g hg => ?_, ?_⟩
  · rw [fifo_setFifo, if_pos rfl]
  · rw [fifo_setFifo, if_neg hg]
  · cases f <;> rfl

/-- Instance of `bt_buf_put_frame`: slot 7 of `sample_pool`, tagged as inbound
data, goes to the tail of the inbound list. -/
theorem bt_buf_put_frame_witness :
    get_avail (sample_pool.buffers 7).type = some .avail_acl_in ∧
    (bt_buf_put sample_pool 7).fifo .avail_acl_in = sample_pool.fifo .avail_acl_in ++ [7] ∧
    (∀ g, g ≠ fifo_id.avail_acl_in → (bt_buf_put sample_pool 7).fifo g = sample_pool.fifo g) ∧
    (bt_buf_put sample_pool 7).buffers = sample_pool.buffers :=
  ⟨rfl, bt_buf_put_frame sample_pool 7 .avail_acl_in rfl⟩

/-- C14: `get_avail` reads nothing but its argument, and it is total: `BT_CMD`
and `BT_EVT` map to the command/event list, `BT_ACL_IN` to the inbound list,
`BT_ACL_OUT` to the outbound list, the three lists being pairwise distinct, so
each of the four types has exactly one list; every other value maps to no
list (`NULL`), and only those do. -/
theorem get_avail_routing :
    get_avail .BT_CMD = some .avail_hci ∧
    get_avail .BT_EVT = some .avail_hci ∧
    get_avail .BT_ACL_IN = some .avail_acl_in ∧
    get_avail .BT_ACL_OUT = some .avail_acl_out ∧
    fifo_id.avail_hci ≠ fifo_id.avail_acl_in ∧
    fifo_id.avail_hci ≠ fifo_id.avail_acl_out ∧
    fifo_id.avail_acl_in ≠ fifo_id.avail_acl_out ∧
    (∀ t : bt_buf_type, (∃ v, t = .other v) ∨ ∃! f, get_avail t = some f) ∧
    (∀ v : Nat, get_avail (.other v) = none) ∧
    (∀ t : bt_buf_type, get_avail t = none ↔ ∃ v, t = .other v) := by
  refine ⟨rfl, rfl, rfl, rfl, by decide, by decide, by decide, fun t => ?_, fun _ => rfl,
    fun t => ?_⟩
  · cases t with
    | other v => exact Or.inl ⟨v, rfl⟩
    | BT_CMD => exact Or.inr ⟨.avail_hci, rfl, fun g hg => by simpa [get_avail] using hg.symm⟩
    | BT_EVT => exact Or.inr ⟨.avail_hci, rfl, fun g hg => by simpa [get_avail] using hg.symm⟩
    | BT_ACL_IN =>
      exact Or.inr ⟨.avail_acl_in, rfl, fun g hg => by simpa [get_avail] using hg.symm⟩
    | BT_ACL_OUT =>
      exact Or.inr ⟨.avail_acl_out, rfl, fun g hg => by simpa [get_avail] using hg.symm⟩
  · cases t <;> simp [get_avail]

/-- C18: for every buffer and every length, `bt_buf_add`, `bt_buf_push` and
`bt_buf_pull` leave every storage byte and the type tag as they were (only the
data offset and the length can differ, and `bt_buf_add` keeps the data offset
too); `bt_buf_headroom` and `bt_buf_tailroom` return a size and have no buffer
to change. -/
theorem window_edit_frame (w : Nat) (b : bt_buf) (n : Nat) :
    (bt_buf_add w b n).2.buf = b.buf ∧ (bt_buf_add w b n).2.type = b.type ∧
    (bt_buf_add w b n).2.data = b.data ∧
    (bt_buf_push w b n).2.buf = b.buf ∧ (bt_buf_push w b n).2.type = b.type ∧
    (bt_buf_pull w b n).2.buf = b.buf ∧ (bt_buf_pull w b n).2.type = b.type :=
  ⟨rfl, rfl, rfl, rfl, rfl, rfl, rfl⟩

/-! ## Window arithmetic -/

theorem to_size_t_cast (w : Nat) (x : Int) : (to_size_t w x : Int) = x % (2 : Int) ^ w := by
  unfold to_size_t
  have hpos : (0 : Int) < (2 : Int) ^ w := by positivity
  exact Int.toNat_of_nonneg (Int.emod_nonneg _ (ne_of_gt hpos))

theorem to_size_t_add_sub (w a n : Nat) (ha : a < 2 ^ w) :
    to_size_t w ((to_size_t w ((a : Int) + (n : Int)) : Int) - (n : Int)) = a := by
  have hc := cast_pow_lt a w ha
  have h1 : (to_size_t w ((to_size_t w ((a : Int) + (n : Int)) : Int) - (n : Int)) : Int)
      = (a : Int) := by
    rw [to_size_t_cast, to_size_t_cast, sub_eq_add_neg, Int.emod_add_emod]
    rw [show (a : Int) + (n : Int) + -(n : Int) = (a : Int) by ring]
    exact Int.emod_eq_of_lt (by omega) hc
  exact_mod_cast h1

theorem to_size_t_sub_add (w a n : Nat) (ha : a < 2 ^ w) :
    to_size_t w ((to_size_t w ((a : Int) - (n : Int)) : Int) + (n : Int)) = a := by
  have hc := cast_pow_lt a w ha
  have h1 : (to_size_t w ((to_size_t w ((a : Int) - (n : Int)) : Int) + (n : Int)) : Int)
      = (a : Int) := by
    rw [to_size_t_cast, to_size_t_cast, Int.emod_add_emod]
    rw [show (a : Int) - (n : Int) + (n : Int) = (a : Int) by ring]
    exact Int.emod_eq_of_lt (by omega) hc
  exact_mod_cast h1

theorem add_fields (w : Nat) (b : bt_buf) (n : Nat) (h : b.len + n < 2 ^ w) :
    (bt_buf_add w b n).2 = { b with len := b.len + n } := by
  have hc := cast_pow_lt (b.len + n) w h
  have hl := to_size_t_of_lt w ((b.len : Int) + (n : Int)) (by omega) (by push_cast at hc; omega)
  have hl' : to_size_t w ((b.len : Int) + (n : Int)) = b.len + n := by exact_mod_cast hl
  simp only [bt_buf_add, hl']

theorem push_fields (w : Nat) (b : bt_buf) (n : Nat) (h : b.len + n < 2 ^ w) :
    (bt_buf_push w b n).2 = { b with data := b.data - (n : Int), len := b.len + n } := by
  have hc := cast_pow_lt (b.len + n) w h
  have hl := to_size_t_of_lt w ((b.len : Int) + (n : Int)) (by omega) (by push_cast at hc; omega)
  have hl' : to_size_t w ((b.len : Int) + (n : Int)) = b.len + n := by exact_mod_cast hl
  simp only [bt_buf_push, hl']

theorem pull_fields (w : Nat) (b : bt_buf) (n : Nat) (h1 : n ≤ b.len) (h2 : b.len < 2 ^ w) :
    (bt_buf_pull w b n).2 = { b with data := b.data + (n : Int), len := b.len - n } := by
  have hc := cast_pow_lt b.len w h2
  have hl := to_size_t_of_lt w ((b.len : Int) - (n : Int)) (by omega) (by omega)
  have hl' : to_size_t w ((b.len : Int) - (n : Int)) = b.len - n := by omega
  simp only [bt_buf_pull, hl']

/-- C15: for a buffer satisfying the window invariant (capacity
`BT_BUF_MAX_DATA = C` representable in `size_t`), `bt_buf_headroom` equals the
data offset and `bt_buf_tailroom` equals `C - offset - len`, the `size_t`
subtractions not wrapping around, so that headroom + len + tailroom = C. -/
theorem headroom_tailroom_spec (C w : Nat) (b : bt_buf) (hC : C < 2 ^ w)
    (hok : window_ok C b) :
    (bt_buf_headroom w b : Int) = b.data ∧
    (bt_buf_tailroom C w b : Int) = (C : Int) - b.data - (b.len : Int) ∧
    bt_buf_tailroom C w b = C - bt_buf_headroom w b - b.len ∧
    bt_buf_headroom w b + b.len + bt_buf_tailroom C w b = C := by
  have hh := headroom_of_window_ok C w b hC hok
  have ht := tailroom_of_window_ok C w b hC hok
  obtain ⟨h0, h1⟩ := hok
  refine ⟨hh, ht, ?_, ?_⟩ <;> omega

/-- Instance of `headroom_tailroom_spec` at `sample_buf`: headroom 8, length
20, tailroom 36, capacity 64. -/
theorem headroom_tailroom_spec_witness :
    (bt_buf_headroom 32 sample_buf : Int) = sample_buf.data ∧
    (bt_buf_tailroom 64 32 sample_buf : Int)
      = ((64 : Nat) : Int) - sample_buf.data - (sample_buf.len : Int) ∧
    bt_buf_tailroom 64 32 sample_buf = 64 - bt_buf_headroom 32 sample_buf - sample_buf.len ∧
    bt_buf_headroom 32 sample_buf + sample_buf.len + bt_buf_tailroom 64 32 sample_buf = 64 :=
  headroom_tailroom_spec 64 32 sample_buf (by decide) (by decide)

/-- C17: for a buffer satisfying the window invariant, `bt_buf_add` with `len`
exactly `bt_buf_tailroom` meets the precondition of `bt_buf_add` and leaves
tailroom 0 with the invariant still holding, and `bt_buf_push` with `len`
exactly `bt_buf_headroom` meets the precondition of `bt_buf_push` and leaves
headroom 0 with the invariant still holding. -/
theorem exact_fit (C w : Nat) (b : bt_buf) (hC : C < 2 ^ w) (hok : window_ok C b) :
    win_op.pre C b (.add (bt_buf_tailroom C w b)) ∧
    window_ok C (bt_buf_add w b (bt_buf_tailroom C w b)).2 ∧
    bt_buf_tailroom C w (bt_buf_add w b (bt_buf_tailroom C w b)).2 = 0 ∧
    win_op.pre C b (.push (bt_buf_headroom w b)) ∧
    window_ok C (bt_buf_push w b (bt_buf_headroom w b)).2 ∧
    bt_buf_headroom w (bt_buf_push w b (bt_buf_headroom w b)).2 = 0 := by
  have hh := headroom_of_window_ok C w b hC hok
  have ht := tailroom_of_window_ok C w b hC hok
  have hpa : win_op.pre C b (.add (bt_buf_tailroom C w b)) := by
    simp only [win_op.pre]; omega
  have hpp : win_op.pre C b (.push (bt_buf_headroom w b)) := by
    simp only [win_op.pre]; omega
  have hoa := win_op_preserves C w b _ hok hpa
  have hop := win_op_preserves C w b _ hok hpp
  simp only [win_op.apply] at hoa hop
  have hta := tailroom_of_window_ok C w _ hC hoa
  have hhp := headroom_of_window_ok C w _ hC hop
  obtain ⟨h0, h1⟩ := hok
  have hfa := add_fields w b (bt_buf_tailroom C w b) (by omega)
  have hfp := push_fields w b (bt_buf_headroom w b) (by omega)
  have hda : (bt_buf_add w b (bt_buf_tailroom C w b)).2.data = b.data := by rw [hfa]
  have hla : (bt_buf_add w b (bt_buf_tailroom C w b)).2.len
      = b.len + bt_buf_tailroom C w b := by rw [hfa]
  have hdp : (bt_buf_push w b (bt_buf_headroom w b)).2.data
      = b.data - (bt_buf_headroom w b : Int) := by rw [hfp]
  refine ⟨hpa, hoa, ?_, hpp, hop, ?_⟩
  · rw [hda, hla] at hta
    push_cast at hta
    omega
  · rw [hdp] at hhp
    omega

/-- Instance of `exact_fit` at `sample_buf`: adding its 36 bytes of tailroom,
pushing its 8 bytes of headroom. -/
theorem exact_fit_witness :
    win_op.pre 64 sample_buf (.add (bt_buf_tailroom 64 32 sample_buf)) ∧
    window_ok 64 (bt_buf_add 32 sample_buf (bt_buf_tailroom 64 32 sample_buf)).2 ∧
    bt_buf_tailroom 64 32 (bt_buf_add 32 sample_buf (bt_buf_tailroom 64 32 sample_buf)).2 = 0 ∧
    win_op.pre 64 sample_buf (.push (bt_buf_headroom 32 sample_buf)) ∧
    window_ok 64 (bt_buf_push 32 sample_buf (bt_buf_headroom 32 sample_buf)).2 ∧
    bt_buf_headroom 32 (bt_buf_push 32 sample_buf (bt_buf_headroom 32 sample_buf)).2 = 0 :=
  exact_fit 64 32 sample_buf (by decide) (by decide)

/-- C20: for a buffer whose `len` is a `size_t` value, `bt_buf_push(buf, n)`
with `n ≤ offset` followed by `bt_buf_pull(buf, n)` restores the data offset
and the length (the buffer is the one before the two calls), and so does
`bt_buf_pull(buf, n)` with `n ≤ len` followed by `bt_buf_push(buf, n)`. -/
theorem push_pull_inverse (w : Nat) (b : bt_buf) (n : Nat) (hlen : b.len < 2 ^ w) :
    ((n : Int) ≤ b.data →
      (bt_buf_pull w (bt_buf_push w b n).2 n).2.data = b.data ∧
      (bt_buf_pull w (bt_buf_push w b n).2 n).2.len = b.len ∧
      (bt_buf_pull w (bt_buf_push w b n).2 n).2 = b) ∧
    (n ≤ b.len →
      (bt_buf_push w (bt_buf_pull w b n).2 n).2.data = b.data ∧
      (bt_buf_push w (bt_buf_pull w b n).2 n).2.len = b.len ∧
      (bt_buf_push w (bt_buf_pull w b n).2 n).2 = b) := by
  have h1 := to_size_t_add_sub w b.len n hlen
  have h2 := to_size_t_sub_add w b.len n hlen
  constructor
  · intro _
    have hd : b.data - (n : Int) + (n : Int) = b.data := by ring
    simp only [bt_buf_pull, bt_buf_push, h1, hd, true_and]
  · intro _
    have hd : b.data + (n : Int) - (n : Int) = b.data := by ring
    simp only [bt_buf_pull, bt_buf_push, h2, hd, true_and]

/-- Instance of `push_pull_inverse`: 4 bytes on `sample_buf` (offset 8,
length 20). -/
theorem push_pull_inverse_witness :
    sample_buf.len < 2 ^ 32 ∧ ((4 : Nat) : Int) ≤ sample_buf.data ∧ 4 ≤ sample_buf.len ∧
    ((bt_buf_pull 32 (bt_buf_push 32 sample_buf 4).2 4).2.data = sample_buf.data ∧
      (bt_buf_pull 32 (bt_buf_push 32 sample_buf 4).2 4).2.len = sample_buf.len ∧
      (bt_buf_pull 32 (bt_buf_push 32 sample_buf 4).2 4).2 = sample_buf) ∧
    ((bt_buf_push 32 (bt_buf_pull 32 sample_buf 4).2 4).2.data = sample_buf.data ∧
      (bt_buf_push 32 (bt_buf_pull 32 sample_buf 4).2 4).2.len = sample_buf.len ∧
      (bt_buf_push 32 (bt_buf_pull 32 sample_buf 4).2 4).2 = sample_buf) :=
  ⟨by decide, by decide, by decide,
   (push_pull_inverse 32 sample_buf 4 (by decide)).1 (by decide),
   (push_pull_inverse 32 sample_buf 4 (by decide)).2 (by decide)⟩

/-- C16: for `H + L ≤ C`, `P ≤ H` and `K ≤ L + P`, the buffer returned by a
successful `bt_buf_get(type, H)` has headroom `H` and tailroom `C - H`; after
`bt_buf_add(L)` it has headroom `H` and tailroom `C - H - L`; after a following
`bt_buf_push(P)` it has headroom `H - P` and length `L + P`; after a following
`bt_buf_pull(K)` it has length `L + P - K` and headroom `H - P + K`. -/
theorem window_algebra (C w : Nat) (p : Pool) (type : bt_buf_type) (H L P K : Nat) (h : Int)
    (hC : C < 2 ^ w) (hHL : H + L ≤ C) (hP : P ≤ H) (hK : K ≤ L + P)
    (hget : (bt_buf_get C p type H).1 = some h) :
    bt_buf_headroom w ((bt_buf_get C p type H).2.buffers h) = H ∧
    bt_buf_tailroom C w ((bt_buf_get C p type H).2.buffers h) = C - H ∧
    bt_buf_headroom w (edit_all w ((bt_buf_get C p type H).2.buffers h) [.add L]) = H ∧
    bt_buf_tailroom C w (edit_all w ((bt_buf_get C p type H).2.buffers h) [.add L])
      = C - H - L ∧
    bt_buf_headroom w (edit_all w ((bt_buf_get C p type H).2.buffers h) [.add L, .push P])
      = H - P ∧
    (edit_all w ((bt_buf_get C p type H).2.buffers h) [.add L, .push P]).len = L + P ∧
    (edit_all w ((bt_buf_get C p type H).2.buffers h) [.add L, .push P, .pull K]).len
      = L + P - K ∧
    bt_buf_headroom w
        (edit_all w ((bt_buf_get C p type H).2.buffers h) [.add L, .push P, .pull K])
      = H - P + K := by
  obtain ⟨f, q, _, _, heq⟩ := bt_buf_get_some C p type H h hget
  have hb0 : (bt_buf_get C p type H).2.buffers h
      = { type := type, data := (H : Int), len := 0, buf := List.replicate C 0 } := by
    rw [heq]
    exact setBuf_buffers_self _ _ _
  generalize (bt_buf_get C p type H).2.buffers h = b0 at hb0 ⊢
  have hd0 : b0.data = (H : Int) := by rw [hb0]
  have hl0 : b0.len = 0 := by rw [hb0]
  simp only [edit_all, win_op.apply]
  have hf1 := add_fields w b0 L (by omega)
  generalize (bt_buf_add w b0 L).2 = b1 at hf1 ⊢
  have hd1 : b1.data = (H : Int) := by rw [hf1]; exact hd0
  have hl1 : b1.len = L := by rw [hf1]; simp only; omega
  have hf2 := push_fields w b1 P (by omega)
  generalize (bt_buf_push w b1 P).2 = b2 at hf2 ⊢
  have hd2 : b2.data = (H : Int) - (P : Int) := by rw [hf2]; simp only; omega
  have hl2 : b2.len = L + P := by rw [hf2]; simp only; omega
  have hf3 := pull_fields w b2 K (by omega) (by omega)
  generalize (bt_buf_pull w b2 K).2 = b3 at hf3 ⊢
  have hd3 : b3.data = (H : Int) - (P : Int) + (K : Int) := by rw [hf3]; simp only; omega
  have hl3 : b3.len = L + P - K := by rw [hf3]; simp only; omega
  have ok0 : window_ok C b0 := by unfold window_ok; omega
  have ok1 : window_ok C b1 := by unfold window_ok; omega
  have ok2 : window_ok C b2 := by unfold window_ok; omega
  have ok3 : window_ok C b3 := by unfold window_ok; omega
  have hh0 := headroom_of_window_ok C w b0 hC ok0
  have ht0 := tailroom_of_window_ok C w b0 hC ok0
  have hh1 := headroom_of_window_ok C w b1 hC ok1
  have ht1 := tailroom_of_window_ok C w b1 hC ok1
  have hh2 := headroom_of_window_ok C w b2 hC ok2
  have hh3 := headroom_of_window_ok C w b3 hC ok3
  refine ⟨?_, ?_, ?_, ?_, ?_, hl2, hl3, ?_⟩ <;> omega

/-- Instance of `window_algebra`, the scenario of the specification: capacity
64, a command buffer with 8 bytes reserved has headroom 8 and tailroom 56;
adding 20 leaves tailroom 36; pushing 4 leaves headroom 4 and length 24;
pulling 6 leaves length 18 and headroom 10. -/
theorem window_algebra_witness :
    bt_buf_headroom 32 ((bt_buf_get 64 sample_pool .BT_CMD 8).2.buffers 10) = 8 ∧
    bt_buf_tailroom 64 32 ((bt_buf_get 64 sample_pool .BT_CMD 8).2.buffers 10) = 56 ∧
    bt_buf_headroom 32
        (edit_all 32 ((bt_buf_get 64 sample_pool .BT_CMD 8).2.buffers 10) [.add 20]) = 8 ∧
    bt_buf_tailroom 64 32
        (edit_all 32 ((bt_buf_get 64 sample_pool .BT_CMD 8).2.buffers 10) [.add 20]) = 36 ∧
    bt_buf_headroom 32
        (edit_all 32 ((bt_buf_get 64 sample_pool .BT_CMD 8).2.buffers 10) [.add 20, .push 4])
      = 4 ∧
    (edit_all 32 ((bt_buf_get 64 sample_pool .BT_CMD 8).2.buffers 10)
        [.add 20, .push 4]).len = 24 ∧
    (edit_all 32 ((bt_buf_get 64 sample_pool .BT_CMD 8).2.buffers 10)
        [.add 20, .push 4, .pull 6]).len = 18 ∧
    bt_buf_headroom 32
        (edit_all 32 ((bt_buf_get 64 sample_pool .BT_CMD 8).2.buffers 10)
          [.add 20, .push 4, .pull 6]) = 10 :=
  window_algebra 64 32 sample_pool .BT_CMD 8 20 4 6 10 (by decide) (by decide) (by decide)
    (by decide) rfl

/-! ## Slices dealt by the initialisation -/

/-- C13: on a successful `bt_buf_init(acl_in, acl_out)` with non-negative
counts, the inbound list is exactly the slots `0 .. acl_in - 1`, the outbound
list exactly the slots `acl_in .. acl_in + acl_out - 1`, and the command/event
list exactly the remaining `NUM_BUFS - acl_in - acl_out` slots
`acl_in + acl_out .. NUM_BUFS - 1`, each in increasing index order; the lists
have `acl_in`, `acl_out` and `NUM_BUFS - acl_in - acl_out` entries. -/
theorem bt_buf_init_slices (p : Pool) (acl_in acl_out : Int)
    (hin : 0 ≤ acl_in) (hout : 0 ≤ acl_out) (hinit : (bt_buf_init p acl_in acl_out).1 = 0) :
    (bt_buf_init p acl_in acl_out).2.avail_acl_in
      = (List.range acl_in.toNat).map (fun k : Nat => (k : Int)) ∧
    (bt_buf_init p acl_in acl_out).2.avail_acl_out
      = (List.range acl_out.toNat).map (fun k : Nat => acl_in + (k : Int)) ∧
    (bt_buf_init p acl_in acl_out).2.avail_hci
      = (List.range (NUM_BUFS - acl_in - acl_out).toNat).map
          (fun k : Nat => acl_in + acl_out + (k : Int)) ∧
    ((bt_buf_init p acl_in acl_out).2.avail_acl_in.length : Int) = acl_in ∧
    ((bt_buf_init p acl_in acl_out).2.avail_acl_out.length : Int) = acl_out ∧
    ((bt_buf_init p acl_in acl_out).2.avail_hci.length : Int)
      = NUM_BUFS - acl_in - acl_out := by
  have hlt := bt_buf_init_ok p acl_in acl_out hinit
  obtain ⟨_, _, h1, h2, h3⟩ := bt_buf_init_lists p acl_in acl_out hlt
  have ea : ((acl_in.toNat : Nat) : Int) = acl_in := Int.toNat_of_nonneg hin
  have eb : ((acl_out.toNat : Nat) : Int) = acl_out := Int.toNat_of_nonneg hout
  have e3 : NUM_BUFS - ((0 : Int) + (acl_in.toNat : Int) + (acl_out.toNat : Int))
      = NUM_BUFS - acl_in - acl_out := by omega
  have l1 : (bt_buf_init p acl_in acl_out).2.avail_acl_in
      = (List.range acl_in.toNat).map (fun k : Nat => (k : Int)) := by
    rw [h1]
    exact List.map_congr_left (fun k _ => by omega)
  have l2 : (bt_buf_init p acl_in acl_out).2.avail_acl_out
      = (List.range acl_out.toNat).map (fun k : Nat => acl_in + (k : Int)) := by
    rw [h2]
    exact List.map_congr_left (fun k _ => by omega)
  have l3 : (bt_buf_init p acl_in acl_out).2.avail_hci
      = (List.range (NUM_BUFS - acl_in - acl_out).toNat).map
          (fun k : Nat => acl_in + acl_out + (k : Int)) := by
    rw [h3, e3]
    exact List.map_congr_left (fun k _ => by omega)
  refine ⟨l1, l2, l3, ?_, ?_, ?_⟩
  · rw [l1, List.length_map, List.length_range]
    exact ea
  · rw [l2, List.length_map, List.length_range]
    exact eb
  · rw [l3, List.length_map, List.length_range]
    unfold NUM_BUFS at hlt ⊢
    omega

/-- Instance of `bt_buf_init_slices`, the scenario of the specification:
`bt_buf_init(5, 5)` with 20 buffers gives 5 inbound slots 0..4, 5 outbound
slots 5..9 and 10 command/event slots 10..19. -/
theorem bt_buf_init_slices_witness :
    ((bt_buf_init sample_pool 5 5).1 = 0 ∧
      (bt_buf_init sample_pool 5 5).2.avail_acl_in = [0, 1, 2, 3, 4] ∧
      (bt_buf_init sample_pool 5 5).2.avail_acl_out = [5, 6, 7, 8, 9] ∧
      (bt_buf_init sample_pool 5 5).2.avail_hci
        = [10, 11, 12, 13, 14, 15, 16, 17, 18, 19]) ∧
    ((bt_buf_init sample_pool 5 5).2.avail_acl_in
      = (List.range (5 : Int).toNat).map (fun k : Nat => (k : Int)) ∧
    (bt_buf_init sample_pool 5 5).2.avail_acl_out
      = (List.range (5 : Int).toNat).map (fun k : Nat => (5 : Int) + (k : Int)) ∧
    (bt_buf_init sample_pool 5 5).2.avail_hci
      = (List.range (NUM_BUFS - 5 - 5).toNat).map
          (fun k : Nat => (5 : Int) + 5 + (k : Int)) ∧
    ((bt_buf_init sample_pool 5 5).2.avail_acl_in.length : Int) = 5 ∧
    ((bt_buf_init sample_pool 5 5).2.avail_acl_out.length : Int) = 5 ∧
    ((bt_buf_init sample_pool 5 5).2.avail_hci.length : Int) = NUM_BUFS - 5 - 5) :=
  ⟨by simp [sample_init_eq],
   bt_buf_init_slices sample_pool 5 5 (by decide) (by decide) (by simp [sample_init_eq])⟩

/-- C19 fails on the code at `bt_buf_init(30, -20)`: the sum 10 passes the
check and the call returns 0, but the first loop has put the indices 0 .. 29 on
the inbound list, among them 29, which is not below `NUM_BUFS`; the other two
lists are empty. -/
theorem bt_buf_init_index_out_of_range :
    (bt_buf_init sample_pool 30 (-20)).1 = 0 ∧
    (bt_buf_init sample_pool 30 (-20)).2.avail_acl_in
      = (List.range 30).map (fun k : Nat => (k : Int)) ∧
    (29 : Int) ∈ (bt_buf_init sample_pool 30 (-20)).2.avail_acl_in ∧
    ¬ ((29 : Int) < NUM_BUFS) ∧
    (bt_buf_init sample_pool 30 (-20)).2.avail_acl_out = [] ∧
    (bt_buf_init sample_pool 30 (-20)).2.avail_hci = [] := by
  obtain ⟨h0, _, h1, h2, h3⟩ := bt_buf_init_lists sample_pool 30 (-20) (by decide)
  refine ⟨h0, ?_, ?_, by decide, ?_, ?_⟩
  · rw [h1]
    decide
  · rw [h1]
    decide
  · rw [h2]
    decide
  · rw [h3]
    decide

/-! ## Acquire, release, acquire again -/

theorem edit_all_type (w : Nat) (ops : List win_op) : ∀ b : bt_buf,
    (edit_all w b ops).type = b.type := by
  induction ops with
  | nil => intro b; rfl
  | cons op ops ih =>
    intro b
    rw [edit_all, ih]
    cases op <;> rfl

theorem get_edit_put_fifo (C w : Nat) (p : Pool) (type : bt_buf_type) (H1 : Nat) (h : Int)
    (ops : List win_op) (bytes : List Nat) (f : fifo_id) (hf : get_avail type = some f)
    (hget : (bt_buf_get C p type H1).1 = some h) :
    ∃ q, p.fifo f = h :: q ∧ (get_edit_put C w p type H1 ops bytes).fifo f = q ++ [h] := by
  obtain ⟨f', q, hf', hq, heq⟩ := bt_buf_get_some C p type H1 h hget
  have hff : f' = f := Option.some.inj (hf'.symm.trans hf)
  subst hff
  refine ⟨q, hq, ?_⟩
  unfold get_edit_put
  rw [heq]
  simp only [setBuf_buffers_self]
  have hty : get_avail
      ((((p.setFifo f' q).setBuf h
          { type := type, data := (H1 : Int), len := 0, buf := List.replicate C 0 }).setBuf h
        { edit_all w
            { type := type, data := (H1 : Int), len := 0, buf := List.replicate C 0 } ops
          with buf := bytes }).buffers h).type = some f' := by
    rw [setBuf_buffers_self]
    show get_avail (edit_all w _ ops).type = some f'
    rw [edit_all_type]
    exact hf
  unfold bt_buf_put
  rw [hty]
  simp only [fifo_setFifo, if_true, nano_fifo_put]
  have : ∀ (P : Pool) (i : Int) (b : bt_buf), (P.setBuf i b).fifo f' = P.fifo f' :=
    fun P i b => by cases f' <;> rfl
  rw [this, this, fifo_setFifo, if_pos rfl]

/-- C12: let a buffer `h` be acquired with `bt_buf_get(type, H1)`, edited by
any sequence of window edits, left with any storage bytes and released with
`bt_buf_put`, and let further buffers of the same class then be acquired
(the requests `pre`). A following `bt_buf_get(type, H2)` with `H2 ≤ C` returns
`h` once every handle queued before it has been taken, and whenever it returns
`h`, that buffer has headroom `H2`, data offset `H2`, length 0, all storage
bytes zero and the type tag `type`: nothing of the earlier use is left. -/
theorem acquire_release_round_trip (C w : Nat) (p : Pool) (type : bt_buf_type)
    (H1 H2 : Nat) (h : Int) (ops : List win_op) (bytes : List Nat)
    (pre : List (bt_buf_type × Nat))
    (hC : C < 2 ^ w) (hH2 : H2 ≤ C) (hget : (bt_buf_get C p type H1).1 = some h)
    (hpre : ∀ x ∈ pre, get_avail x.1 = get_avail type) :
    (∀ f, get_avail type = some f →
      pre.length + 1 = ((get_edit_put C w p type H1 ops bytes).fifo f).length →
      (bt_buf_get C (get_many C (get_edit_put C w p type H1 ops bytes) pre).2 type H2).1
        = some h) ∧
    ((bt_buf_get C (get_many C (get_edit_put C w p type H1 ops bytes) pre).2 type H2).1
        = some h →
      bt_buf_headroom w
        ((bt_buf_get C (get_many C (get_edit_put C w p type H1 ops bytes) pre).2
          type H2).2.buffers h) = H2 ∧
      ((bt_buf_get C (get_many C (get_edit_put C w p type H1 ops bytes) pre).2
          type H2).2.buffers h).data = (H2 : Int) ∧
      ((bt_buf_get C (get_many C (get_edit_put C w p type H1 ops bytes) pre).2
          type H2).2.buffers h).len = 0 ∧
      ((bt_buf_get C (get_many C (get_edit_put C w p type H1 ops bytes) pre).2
          type H2).2.buffers h).buf = List.replicate C 0 ∧
      ((bt_buf_get C (get_many C (get_edit_put C w p type H1 ops bytes) pre).2
          type H2).2.buffers h).type = type) := by
  constructor
  · intro f hf hlen
    obtain ⟨q, _, hq⟩ := get_edit_put_fifo C w p type H1 h ops bytes f hf hget
    rw [hq, List.length_append, List.length_singleton] at hlen
    obtain ⟨_, hdrop⟩ := get_many_spec C f pre (get_edit_put C w p type H1 ops bytes)
      (fun x hx => (hpre x hx).trans hf) (by rw [hq, List.length_append]; omega)
    have hlen' : pre.length = q.length := by omega
    rw [hq, hlen', List.drop_left] at hdrop
    simp [bt_buf_get, hf, hdrop, nano_fifo_get]
  · intro hret
    obtain ⟨f, q, _, _, heq⟩ := bt_buf_get_some C _ type H2 h hret
    rw [heq]
    simp only [setBuf_buffers_self, true_and, and_true]
    have := to_size_t_of_lt w (H2 : Int) (by omega) (by have := cast_pow_lt C w hC; omega)
    unfold bt_buf_headroom
    exact_mod_cast this

/-- Instance of `acquire_release_round_trip` on `sample_pool`: command buffer
10 is acquired with 8 bytes reserved, edited and filled, and released; after
one event buffer (slot 11) has been taken, a command buffer with 16 bytes
reserved is slot 10 again, with headroom 16, length 0 and zeroed storage. -/
theorem acquire_release_round_trip_witness :
    (bt_buf_get 64 sample_pool .BT_CMD 8).1 = some 10 ∧
    (get_many 64
        (get_edit_put 64 32 sample_pool .BT_CMD 8 [.add 20, .push 4] [7, 7, 7])
        [(.BT_EVT, 0)]).1 = [some 11] ∧
    (bt_buf_get 64
        (get_many 64
          (get_edit_put 64 32 sample_pool .BT_CMD 8 [.add 20, .push 4] [7, 7, 7])
          [(.BT_EVT, 0)]).2 .BT_CMD 16).1 = some 10 ∧
    bt_buf_headroom 32
      ((bt_buf_get 64
        (get_many 64
          (get_edit_put 64 32 sample_pool .BT_CMD 8 [.add 20, .push 4] [7, 7, 7])
          [(.BT_EVT, 0)]).2 .BT_CMD 16).2.buffers 10) = 16 ∧
    ((bt_buf_get 64
        (get_many 64
          (get_edit_put 64 32 sample_pool .BT_CMD 8 [.add 20, .push 4] [7, 7, 7])
          [(.BT_EVT, 0)]).2 .BT_CMD 16).2.buffers 10).data = ((16 : Nat) : Int) ∧
    ((bt_buf_get 64
        (get_many 64
          (get_edit_put 64 32 sample_pool .BT_CMD 8 [.add 20, .push 4] [7, 7, 7])
          [(.BT_EVT, 0)]).2 .BT_CMD 16).2.buffers 10).len = 0 ∧
    ((bt_buf_get 64
        (get_many 64
          (get_edit_put 64 32 sample_pool .BT_CMD 8 [.add 20, .push 4] [7, 7, 7])
          [(.BT_EVT, 0)]).2 .BT_CMD 16).2.buffers 10).buf = List.replicate 64 0 ∧
    ((bt_buf_get 64
        (get_many 64
          (get_edit_put 64 32 sample_pool .BT_CMD 8 [.add 20, .push 4] [7, 7, 7])
          [(.BT_EVT, 0)]).2 .BT_CMD 16).2.buffers 10).type = .BT_CMD :=
  ⟨rfl, rfl,
   (acquire_release_round_trip 64 32 sample_pool .BT_CMD 8 16 10 [.add 20, .push 4]
      [7, 7, 7] [(.BT_EVT, 0)] (by decide) (by decide) rfl (by decide)).1
      .avail_hci rfl rfl,
   (acquire_release_round_trip 64 32 sample_pool .BT_CMD 8 16 10 [.add 20, .push 4]
      [7, 7, 7] [(.BT_EVT, 0)] (by decide) (by decide) rfl (by decide)).2 rfl⟩

end BtBuf
